import Mathlib

/-!
Verification of the SSE (server-sent events) go client/server core
(`shared/utility/sse_server.go` and the client utility file).

The Go code is embedded shallowly:

* A Go `map[string]*Client` is an association list `List (String × Client)`
  with pairwise-distinct keys (the well-formedness predicate `WF`).
* A Go `*Client` pointer is a `Client` value carrying its `ID` field plus a
  `token : Nat` that models pointer identity, so two distinct connections
  with the same identifier are distinguishable values.
* Closing a client's `done` channel is modelled by appending the client to
  the `doneSignals` list of the server state; "the done signal fired exactly
  once for `c`" is "`c` occurs exactly once more in `doneSignals`".
* Methods that mutate the receiver become functions `state → result × state`
  (or `state → state` for `removeClient`, which returns nothing in Go).
* Whether a write to a given connection's sink fails, and with which error,
  is an oracle `writeErr : Client → Option String` (`none` = success);
  Go error values are their message strings.
* The `context.Context` deadline machinery is not modelled: all claims here
  are about runs in which no deadline fires.
-/

namespace SSEGo

/-- One SSE client connection (Go struct `Client`): the identifier field and
a `token` modelling the pointer identity of the Go `*Client` (each call to
`setupClientConnection` allocates a fresh struct and a fresh `done` channel). -/
structure Client where
  ID : String
  token : Nat
  deriving DecidableEq

/-- State of the Go `SSEServer`: the `clients` map as an association list,
the configured `maxConns`, and the ordered log of clients whose `done`
channel has been closed. -/
structure SSEServer where
  clients : List (String × Client)
  maxConns : Nat
  doneSignals : List Client
  deriving DecidableEq

/-- Lookup in the `clients` map (`s.clients[clientID]` in Go). -/
def lookupClient : List (String × Client) → String → Option Client
  | [], _ => none
  | (k, c) :: rest, id => if k = id then some c else lookupClient rest id

/-- Go map assignment `s.clients[client.ID] = client`: overwrite the binding
if the key is present, otherwise append a new binding. -/
def mapInsert : List (String × Client) → String → Client → List (String × Client)
  | [], k, c => [(k, c)]
  | (k', c') :: rest, k, c =>
      if k' = k then (k, c) :: rest else (k', c') :: mapInsert rest k c

/-- Go `delete(s.clients, clientID)`: drop the (first) binding of the key. -/
def mapErase : List (String × Client) → String → List (String × Client)
  | [], _ => []
  | (k', c') :: rest, k => if k' = k then rest else (k', c') :: mapErase rest k

/-- Well-formedness of a server state, which every state reachable through
the Go API has: the map keys are pairwise distinct (a Go map cannot bind one
key twice) and each binding's key is the bound client's `ID` field (the only
insertion site is `s.clients[client.ID] = client`). -/
def WF (s : SSEServer) : Prop :=
  (s.clients.map Prod.fst).Nodup ∧ ∀ p ∈ s.clients, p.1 = p.2.ID

/-- Go `NewSSEServer` restricted to the `MaxConnections` field: a
non-positive configured value falls back to the default 10000, and the
client map starts empty. -/
def NewSSEServer (maxConnections : Int) : SSEServer :=
  { clients := []
    maxConns := (if maxConnections ≤ 0 then (10000 : Int) else maxConnections).toNat
    doneSignals := [] }

/-- Go `addClient`: fail when the map already holds `maxConns` entries,
otherwise insert at key `client.ID`. Returns the Go error (if any) together
with the state after the call. -/
def addClient (s : SSEServer) (client : Client) : Option String × SSEServer :=
  if s.maxConns ≤ s.clients.length then
    (some ("maximum connections (" ++ toString s.maxConns ++ ") reached"), s)
  else
    (none, { s with clients := mapInsert s.clients client.ID client })

/-- Go `removeClient`: look up the id under the lock; when present, delete
the binding, and after releasing the lock close that client's `done`
channel (modelled as appending it to `doneSignals`). -/
def removeClient (s : SSEServer) (clientID : String) : SSEServer :=
  match lookupClient s.clients clientID with
  | none => s
  | some client =>
      { s with
        clients := mapErase s.clients clientID
        doneSignals := s.doneSignals ++ [client] }

/-- Go `GetConnectedClientCount`: `len(s.clients)`. -/
def GetConnectedClientCount (s : SSEServer) : Nat :=
  s.clients.length

/-- Go `GetConnectedClientIDs`: the keys of the map. -/
def GetConnectedClientIDs (s : SSEServer) : List String :=
  s.clients.map Prod.fst

/-- Go `IsClientConnected`. -/
def IsClientConnected (s : SSEServer) (clientID : String) : Bool :=
  (lookupClient s.clients clientID).isSome

theorem lookupClient_mapInsert_self (l : List (String × Client)) (k : String) (c : Client) :
    lookupClient (mapInsert l k c) k = some c := by
  induction l with
  | nil => simp [mapInsert, lookupClient]
  | cons p rest ih =>
      obtain ⟨k', c'⟩ := p
      by_cases h : k' = k
      · simp [mapInsert, lookupClient, h]
      · simp [mapInsert, lookupClient, h, ih]

theorem lookupClient_mapInsert_ne (l : List (String × Client)) (k k' : String) (c : Client)
    (h : k' ≠ k) : lookupClient (mapInsert l k c) k' = lookupClient l k' := by
  induction l with
  | nil => simp [mapInsert, lookupClient, Ne.symm h]
  | cons p rest ih =>
      obtain ⟨k0, c0⟩ := p
      by_cases h0 : k0 = k
      · subst h0
        simp [mapInsert, lookupClient, Ne.symm h]
      · simp [mapInsert, lookupClient, h0, ih]

theorem length_mapInsert_of_not_mem (l : List (String × Client)) (k : String) (c : Client)
    (h : k ∉ l.map Prod.fst) : (mapInsert l k c).length = l.length + 1 := by
  induction l with
  | nil => simp [mapInsert]
  | cons p rest ih =>
      simp only [List.map_cons, List.mem_cons] at h
      push_neg at h
      simp [mapInsert, Ne.symm h.1, ih h.2]

theorem keys_mapInsert_of_not_mem (l : List (String × Client)) (k : String) (c : Client)
    (h : k ∉ l.map Prod.fst) :
    (mapInsert l k c).map Prod.fst = l.map Prod.fst ++ [k] := by
  induction l with
  | nil => simp [mapInsert]
  | cons p rest ih =>
      simp only [List.map_cons, List.mem_cons] at h
      push_neg at h
      simp [mapInsert, Ne.symm h.1, ih h.2]

theorem length_mapInsert_of_mem (l : List (String × Client)) (k : String) (c : Client)
    (h : k ∈ l.map Prod.fst) : (mapInsert l k c).length = l.length := by
  induction l with
  | nil => simp at h
  | cons p rest ih =>
      obtain ⟨k0, c0⟩ := p
      by_cases h0 : k0 = k
      · simp [mapInsert, h0]
      · simp only [List.map_cons, List.mem_cons] at h
        rcases h with h | h
        · exact absurd h.symm h0
        · simp [mapInsert, h0, ih h]

theorem lookupClient_eq_none_of_not_mem (l : List (String × Client)) (k : String)
    (h : k ∉ l.map Prod.fst) : lookupClient l k = none := by
  induction l with
  | nil => rfl
  | cons p rest ih =>
      simp only [List.map_cons, List.mem_cons] at h
      push_neg at h
      simp [lookupClient, Ne.symm h.1, ih h.2]

theorem lookupClient_mapErase_self (l : List (String × Client)) (k : String)
    (h : (l.map Prod.fst).Nodup) : lookupClient (mapErase l k) k = none := by
  induction l with
  | nil => rfl
  | cons p rest ih =>
      obtain ⟨k0, c0⟩ := p
      simp only [List.map_cons, List.nodup_cons] at h
      by_cases h0 : k0 = k
      · subst h0
        simpa [mapErase] using lookupClient_eq_none_of_not_mem rest k0 h.1
      · simp [mapErase, lookupClient, h0, ih h.2]

theorem lookupClient_mapErase_ne (l : List (String × Client)) (k k' : String)
    (h : k' ≠ k) : lookupClient (mapErase l k) k' = lookupClient l k' := by
  induction l with
  | nil => rfl
  | cons p rest ih =>
      obtain ⟨k0, c0⟩ := p
      by_cases h0 : k0 = k
      · subst h0
        simp [mapErase, lookupClient, Ne.symm h]
      · simp [mapErase, lookupClient, h0, ih]

theorem keys_mapErase_sublist (l : List (String × Client)) (k : String) :
    ((mapErase l k).map Prod.fst).Sublist (l.map Prod.fst) := by
  induction l with
  | nil => simp [mapErase]
  | cons p rest ih =>
      obtain ⟨k0, c0⟩ := p
      by_cases h0 : k0 = k
      · simp [mapErase, h0]
      · simpa [mapErase, h0] using ih

theorem WF_mapInsert_keys_aux (l : List (String × Client)) (k : String) (c' : Client)
    (hk : k ∈ l.map Prod.fst) : (mapInsert l k c').map Prod.fst = l.map Prod.fst := by
  induction l with
  | nil => simp at hk
  | cons p rest ih =>
      obtain ⟨k0, c0⟩ := p
      by_cases h0 : k0 = k
      · subst h0; simp [mapInsert]
      · simp only [List.map_cons, List.mem_cons] at hk
        rcases hk with hk | hk
        · exact absurd hk.symm h0
        · simp [mapInsert, h0, ih hk]

theorem nodup_keys_mapInsert (l : List (String × Client)) (k : String) (c : Client)
    (hl : (l.map Prod.fst).Nodup) : ((mapInsert l k c).map Prod.fst).Nodup := by
  induction l with
  | nil => simp [mapInsert]
  | cons p rest ih =>
      obtain ⟨k0, c0⟩ := p
      simp only [List.map_cons, List.nodup_cons] at hl
      by_cases h0 : k0 = k
      · subst h0
        simpa [mapInsert] using hl
      · have hkey : k0 ∉ (mapInsert rest k c).map Prod.fst := by
          intro hmem
          by_cases hk : k ∈ rest.map Prod.fst
          · rw [WF_mapInsert_keys_aux rest k c hk] at hmem
            exact hl.1 hmem
          · rw [keys_mapInsert_of_not_mem rest k c hk] at hmem
            rcases List.mem_append.mp hmem with h | h
            · exact hl.1 h
            · simp at h
              exact h0 h
        simpa [mapInsert, h0] using List.nodup_cons.mpr ⟨hkey, ih hl.2⟩

theorem idkey_mapInsert (l : List (String × Client)) (k : String) (c : Client)
    (hl : ∀ q ∈ l, q.1 = q.2.ID) (hk : k = c.ID) :
    ∀ q ∈ mapInsert l k c, q.1 = q.2.ID := by
  induction l with
  | nil =>
      intro q hq
      simp [mapInsert] at hq
      subst hq; simpa using hk
  | cons p0 rest ih =>
      obtain ⟨k0, c0⟩ := p0
      intro q hq
      by_cases h0 : k0 = k
      · simp [mapInsert, h0] at hq
        rcases hq with hq | hq
        · subst hq; simpa using hk
        · exact hl q (List.mem_cons_of_mem _ hq)
      · simp only [mapInsert, if_neg h0, List.mem_cons] at hq
        rcases hq with hq | hq
        · subst hq; exact hl (k0, c0) (by simp)
        · exact ih (fun q h => hl q (List.mem_cons_of_mem _ h)) q hq

theorem WF_mapInsert (s : SSEServer) (c : Client) (h : WF s) :
    WF { s with clients := mapInsert s.clients c.ID c } := by
  obtain ⟨hnd, hid⟩ := h
  exact ⟨nodup_keys_mapInsert s.clients c.ID c hnd,
    idkey_mapInsert s.clients c.ID c hid rfl⟩

theorem nodup_keys_mapErase (l : List (String × Client)) (k : String)
    (hl : (l.map Prod.fst).Nodup) : ((mapErase l k).map Prod.fst).Nodup :=
  (keys_mapErase_sublist l k).nodup hl

theorem idkey_mapErase (l : List (String × Client)) (k : String)
    (hl : ∀ q ∈ l, q.1 = q.2.ID) : ∀ q ∈ mapErase l k, q.1 = q.2.ID := by
  induction l with
  | nil => intro q hq; simp [mapErase] at hq
  | cons p rest ih =>
      obtain ⟨k0, c0⟩ := p
      intro q hq
      by_cases h0 : k0 = k
      · exact hl q (List.mem_cons_of_mem _ (by simpa [mapErase, h0] using hq))
      · simp only [mapErase, if_neg h0, List.mem_cons] at hq
        rcases hq with hq | hq
        · subst hq; exact hl (k0, c0) (by simp)
        · exact ih (fun q h => hl q (List.mem_cons_of_mem _ h)) q hq

theorem WF_removeClient (s : SSEServer) (id : String) (h : WF s) :
    WF (removeClient s id) := by
  unfold removeClient
  cases hl : lookupClient s.clients id with
  | none => exact h
  | some c => exact ⟨nodup_keys_mapErase s.clients id h.1, idkey_mapErase s.clients id h.2⟩

theorem removeClient_clients (s : SSEServer) (id : String) (c : Client)
    (h : lookupClient s.clients id = some c) :
    removeClient s id =
      { s with clients := mapErase s.clients id, doneSignals := s.doneSignals ++ [c] } := by
  unfold removeClient
  rw [h]

theorem removeClient_absent (s : SSEServer) (id : String)
    (h : lookupClient s.clients id = none) : removeClient s id = s := by
  unfold removeClient
  rw [h]

theorem lookupClient_removeClient (s : SSEServer) (id k : String)
    (hwf : WF s) :
    lookupClient (removeClient s id).clients k =
      if k = id then none else lookupClient s.clients k := by
  unfold removeClient
  cases hl : lookupClient s.clients id with
  | none =>
      by_cases hk : k = id
      · subst hk; simp [hl]
      · simp [hk]
  | some c =>
      by_cases hk : k = id
      · subst hk; simp [lookupClient_mapErase_self s.clients k hwf.1]
      · simp [hk, lookupClient_mapErase_ne s.clients id k hk]

theorem removeClient_maxConns (s : SSEServer) (id : String) :
    (removeClient s id).maxConns = s.maxConns := by
  unfold removeClient
  cases lookupClient s.clients id <;> rfl

/-- An SSE message (Go struct `Message`): the event type and the payload.
The Go `Data any` field is `Option String`: `none` models the Go `nil`
(rejected by `validateMessage`), `some b` models a present payload whose
`json.Marshal` result is the byte string `b` (no claim here depends on the
encoding itself, only on presence and on the marshalled bytes being shared
by all recipients). -/
structure Message where
  EventType : String
  Data : Option String
  deriving DecidableEq

/-- Result of Go `SendToClients`, one constructor per distinct `return`
site of the Go function: `invalidMessage` for the `validateMessage`
errors, `noMatchingClients` for "no clients found from the specified IDs",
`sendError e` for the single-recipient path that returns the raw write
error `e`, and `partialFailure broadcast failed total first` for the
"failed to broadcast/send to failed/total clients: first" error of the
concurrent path. -/
inductive SendResult where
  | ok
  | invalidMessage (e : String)
  | noMatchingClients
  | sendError (e : String)
  | partialFailure (broadcast : Bool) (failed total : Nat) (first : String)
  deriving DecidableEq

/-- The recipient snapshot of Go `SendToClients`: all mapped clients for a
broadcast (empty `clientIDs`), else the listed identifiers that are
currently mapped, unresolved ones silently dropped. -/
def resolveTargets (s : SSEServer) (clientIDs : List String) : List Client :=
  if clientIDs.isEmpty then s.clients.map Prod.snd
  else clientIDs.filterMap (fun id => lookupClient s.clients id)

/-- Go `SendToClients` in a run where no context deadline fires. The
per-recipient write outcome is the oracle `writeErr`; the concurrent
fan-out is sequentialised in snapshot order, so the error channel order is
the snapshot order and "the first error" is the first failing recipient's
error. Each failing recipient is removed (with its done signal) exactly as
`s.removeClient(c.ID)` does. -/
def SendToClients (s : SSEServer) (writeErr : Client → Option String)
    (msg : Message) (clientIDs : List String) : SendResult × SSEServer :=
  if msg.EventType = "" then (.invalidMessage "invalid message: eventType cannot be empty", s)
  else if msg.Data = none then (.invalidMessage "invalid message: data cannot be nil", s)
  else
    let clients := resolveTargets s clientIDs
    match clients with
    | [] => if clientIDs.isEmpty then (.ok, s) else (.noMatchingClients, s)
    | [c] =>
        match writeErr c with
        | none => (.ok, s)
        | some e => (.sendError e, removeClient s c.ID)
    | c1 :: c2 :: rest =>
        let many := c1 :: c2 :: rest
        let s' := (many.filter fun c => (writeErr c).isSome).foldl
          (fun st c => removeClient st c.ID) s
        match many.filterMap writeErr with
        | [] => (.ok, s')
        | e :: es =>
            (.partialFailure clientIDs.isEmpty (e :: es).length many.length e, s')

/-- Sequential registration of a list of clients via `addClient`, stopping
at the first failure (`none`). This is the loop a sequence of successful
`HandleSSE` registrations performs on the registry. -/
def registerAll (s : SSEServer) : List Client → Option SSEServer
  | [] => some s
  | c :: rest =>
      match addClient s c with
      | (none, s') => registerAll s' rest
      | (some _, _) => none

theorem registerAll_fresh (cs : List Client) (s : SSEServer)
    (hnodup : (cs.map Client.ID).Nodup)
    (hfresh : ∀ c ∈ cs, c.ID ∉ s.clients.map Prod.fst)
    (hcap : s.clients.length + cs.length ≤ s.maxConns) :
    ∃ s', registerAll s cs = some s' ∧
      s'.clients.length = s.clients.length + cs.length ∧
      s'.maxConns = s.maxConns ∧
      s'.doneSignals = s.doneSignals ∧
      s'.clients.map Prod.fst = s.clients.map Prod.fst ++ cs.map Client.ID := by
  induction cs generalizing s with
  | nil => exact ⟨s, rfl, by simp, rfl, rfl, by simp⟩
  | cons c rest ih =>
      have hlt : s.clients.length < s.maxConns := by
        have := hcap
        simp only [List.length_cons] at this
        omega
      have hnle : ¬ s.maxConns ≤ s.clients.length := by omega
      have hcfresh : c.ID ∉ s.clients.map Prod.fst := hfresh c (by simp)
      have hadd : addClient s c =
          (none, { s with clients := mapInsert s.clients c.ID c }) := by
        unfold addClient
        rw [if_neg hnle]
      have hkeys : (mapInsert s.clients c.ID c).map Prod.fst
          = s.clients.map Prod.fst ++ [c.ID] :=
        keys_mapInsert_of_not_mem s.clients c.ID c hcfresh
      have hlen1 : (mapInsert s.clients c.ID c).length = s.clients.length + 1 :=
        length_mapInsert_of_not_mem s.clients c.ID c hcfresh
      simp only [List.map_cons, List.nodup_cons] at hnodup
      obtain ⟨s', hreg, hlen', hmax', hdone', hkeys'⟩ :=
        ih { s with clients := mapInsert s.clients c.ID c }
          hnodup.2
          (by
            intro c' hc'
            simp only [hkeys, List.mem_append, List.mem_singleton]
            push_neg
            refine ⟨hfresh c' (List.mem_cons_of_mem _ hc'), ?_⟩
            intro hEq
            exact hnodup.1 (hEq ▸ List.mem_map_of_mem Client.ID hc'))
          (by
            simp only [hlen1]
            simp only [List.length_cons] at hcap
            omega)
      refine ⟨s', ?_, ?_, ?_, ?_, ?_⟩
      · unfold registerAll
        rw [hadd]
        exact hreg
      · simp only [hlen', hlen1, List.length_cons]
        omega
      · exact hmax'
      · exact hdone'
      · simp [hkeys', hkeys]

/-- C1 (counterexample): two successful registrations that share the
identifier "a" on an empty registry with capacity 3 leave the count at 1,
not 2, so "`Count()` returns exactly N after N successful registrations"
fails without a distinctness assumption on the identifiers. -/
theorem C1_count_counterexample :
    (addClient { clients := [], maxConns := 3, doneSignals := [] } ⟨"a", 0⟩).1 = none ∧
    (addClient (addClient { clients := [], maxConns := 3, doneSignals := [] }
        ⟨"a", 0⟩).2 ⟨"a", 1⟩).1 = none ∧
    GetConnectedClientCount
      (addClient (addClient { clients := [], maxConns := 3, doneSignals := [] }
        ⟨"a", 0⟩).2 ⟨"a", 1⟩).2 = 1 ∧
    GetConnectedClientCount
      (addClient (addClient { clients := [], maxConns := 3, doneSignals := [] }
        ⟨"a", 0⟩).2 ⟨"a", 1⟩).2 ≠ 2 := by
  decide

/-- C1 (amended): starting from an empty registry of capacity `max`,
registering N ≤ max clients with pairwise-distinct identifiers succeeds,
`GetConnectedClientCount` then returns exactly N, and when N = max any
further registration attempt fails with the capacity error and leaves the
state (in particular the mapping) unchanged. -/
theorem C1_count_and_capacity (max : Nat) (cs : List Client)
    (hnodup : (cs.map Client.ID).Nodup) (hlen : cs.length ≤ max) :
    ∃ s', registerAll { clients := [], maxConns := max, doneSignals := [] } cs = some s' ∧
      GetConnectedClientCount s' = cs.length ∧
      (cs.length = max → ∀ c : Client,
        addClient s' c =
          (some ("maximum connections (" ++ toString max ++ ") reached"), s')) := by
  obtain ⟨s', hreg, hlen', hmax', _, _⟩ :=
    registerAll_fresh cs { clients := [], maxConns := max, doneSignals := [] }
      hnodup (by intro c hc; simp) (by simpa using hlen)
  refine ⟨s', hreg, ?_, ?_⟩
  · simpa [GetConnectedClientCount] using hlen'
  · intro hfull c
    have hge : s'.maxConns ≤ s'.clients.length := by
      simp only [hmax']
      omega
    unfold addClient
    rw [if_pos hge, hmax']

/-- Witness for C1_count_and_capacity at max = 2 and two distinct ids. -/
theorem C1_count_and_capacity_witness :
    ∃ s', registerAll { clients := [], maxConns := 2, doneSignals := [] }
        [⟨"a", 0⟩, ⟨"b", 1⟩] = some s' ∧
      GetConnectedClientCount s' = 2 ∧
      (2 = 2 → ∀ c : Client,
        addClient s' c =
          (some ("maximum connections (" ++ toString 2 ++ ") reached"), s')) :=
  C1_count_and_capacity 2 [⟨"a", 0⟩, ⟨"b", 1⟩] (by decide) (by decide)

/-- C2: on a well-formed registry, `removeClient` is idempotent; removing
an absent id is a no-op; removing a present id deletes exactly that binding
and appends exactly one done signal, for that client, after which the id no
longer resolves (so a repeated removal fires no second signal). -/
theorem C2_removeClient_idempotent (s : SSEServer) (id : String) (hwf : WF s) :
    removeClient (removeClient s id) id = removeClient s id ∧
    (lookupClient s.clients id = none → removeClient s id = s) ∧
    (∀ c, lookupClient s.clients id = some c →
      (removeClient s id).clients = mapErase s.clients id ∧
      (removeClient s id).doneSignals = s.doneSignals ++ [c] ∧
      lookupClient (removeClient s id).clients id = none) := by
  refine ⟨?_, removeClient_absent s id, ?_⟩
  · cases hl : lookupClient s.clients id with
    | none => rw [removeClient_absent s id hl, removeClient_absent s id hl]
    | some c =>
        apply removeClient_absent
        rw [lookupClient_removeClient s id id hwf]
        simp
  · intro c hl
    rw [removeClient_clients s id c hl]
    exact ⟨rfl, rfl, lookupClient_mapErase_self s.clients id hwf.1⟩

/-- Witness for C2_removeClient_idempotent on a one-client registry. -/
theorem C2_removeClient_idempotent_witness :
    removeClient (removeClient
        { clients := [("a", ⟨"a", 0⟩)], maxConns := 3, doneSignals := [] } "a") "a" =
      removeClient
        { clients := [("a", ⟨"a", 0⟩)], maxConns := 3, doneSignals := [] } "a" :=
  (C2_removeClient_idempotent
    { clients := [("a", ⟨"a", 0⟩)], maxConns := 3, doneSignals := [] } "a"
    ⟨by decide, by decide⟩).1

theorem mem_of_lookupClient (l : List (String × Client)) (k : String) (c : Client)
    (h : lookupClient l k = some c) : (k, c) ∈ l := by
  induction l with
  | nil => simp [lookupClient] at h
  | cons p rest ih =>
      obtain ⟨k0, c0⟩ := p
      by_cases h0 : k0 = k
      · subst h0
        simp [lookupClient] at h
        simp [h]
      · simp only [lookupClient, if_neg h0] at h
        exact List.mem_cons_of_mem _ (ih h)

theorem lookupClient_of_mem (l : List (String × Client)) (k : String) (c : Client)
    (hnd : (l.map Prod.fst).Nodup) (h : (k, c) ∈ l) : lookupClient l k = some c := by
  induction l with
  | nil => simp at h
  | cons p rest ih =>
      obtain ⟨k0, c0⟩ := p
      simp only [List.map_cons, List.nodup_cons] at hnd
      rcases List.mem_cons.mp h with h | h
      · obtain ⟨hk, hc⟩ := Prod.ext_iff.mp h
        simp only at hk hc
        subst hk
        subst hc
        simp [lookupClient]
      · have hk : k0 ≠ k := by
          intro hEq
          subst hEq
          exact hnd.1 (List.mem_map_of_mem Prod.fst h)
        simp only [lookupClient, if_neg hk]
        exact ih hnd.2 h

theorem lookup_of_mem_resolveTargets (s : SSEServer) (clientIDs : List String)
    (hwf : WF s) :
    ∀ c ∈ resolveTargets s clientIDs, lookupClient s.clients c.ID = some c := by
  intro c hc
  unfold resolveTargets at hc
  by_cases hb : clientIDs.isEmpty
  · rw [if_pos hb] at hc
    obtain ⟨p, hp, hpc⟩ := List.mem_map.mp hc
    have hkey : p.1 = c.ID := by rw [hwf.2 p hp, hpc]
    have : (c.ID, c) ∈ s.clients := by
      have := hp
      rw [show p = (c.ID, c) by
        obtain ⟨p1, p2⟩ := p
        simp only at hpc
        subst hpc
        simpa using hkey] at this
      exact this
    exact lookupClient_of_mem s.clients c.ID c hwf.1 this
  · rw [if_neg hb] at hc
    obtain ⟨id, _, hid⟩ := List.mem_filterMap.mp hc
    have hmem := mem_of_lookupClient s.clients id c hid
    have hkey : id = c.ID := hwf.2 (id, c) hmem
    rw [← hkey]
    exact hid

theorem lookupClient_foldl_removeClient (F : List Client) (s : SSEServer) (k : String)
    (hwf : WF s) :
    lookupClient (F.foldl (fun st c => removeClient st c.ID) s).clients k =
      if k ∈ F.map Client.ID then none else lookupClient s.clients k := by
  induction F generalizing s with
  | nil => simp
  | cons c F ih =>
      simp only [List.foldl_cons, List.map_cons, List.mem_cons]
      rw [ih (removeClient s c.ID) (WF_removeClient s c.ID hwf)]
      rw [lookupClient_removeClient s c.ID k hwf]
      by_cases h1 : k ∈ F.map Client.ID
      · simp [h1]
      · by_cases h2 : k = c.ID
        · simp [h1, h2]
        · simp [h1, h2]

/-- C3: for a valid message with an empty resolved recipient set, a
broadcast (no target ids) returns success and changes nothing, while a
targeted send whose ids all fail to resolve returns the
"no clients found from the specified IDs" error and changes nothing. -/
theorem C3_empty_recipients (s : SSEServer) (writeErr : Client → Option String)
    (msg : Message) (clientIDs : List String)
    (hty : msg.EventType ≠ "") (hdata : msg.Data ≠ none) :
    (clientIDs = [] → s.clients = [] →
      SendToClients s writeErr msg clientIDs = (.ok, s)) ∧
    (clientIDs ≠ [] → (∀ id ∈ clientIDs, lookupClient s.clients id = none) →
      SendToClients s writeErr msg clientIDs = (.noMatchingClients, s)) := by
  constructor
  · intro hids hcl
    subst hids
    simp [SendToClients, resolveTargets, hty, hdata, hcl]
  · intro hne hnone
    cases clientIDs with
    | nil => exact absurd rfl hne
    | cons id0 rest =>
        have hres : resolveTargets s (id0 :: rest) = [] := by
          unfold resolveTargets
          rw [if_neg (by simp)]
          exact List.filterMap_eq_nil_iff.mpr hnone
        simp [SendToClients, hty, hdata, hres]

/-- Witness for C3_empty_recipients: empty registry, broadcast then a
targeted send to an unknown id. -/
theorem C3_empty_recipients_witness :
    SendToClients { clients := [], maxConns := 5, doneSignals := [] }
        (fun _ => none) ⟨"tick", some "1"⟩ [] =
      (.ok, { clients := [], maxConns := 5, doneSignals := [] }) ∧
    SendToClients { clients := [], maxConns := 5, doneSignals := [] }
        (fun _ => none) ⟨"tick", some "1"⟩ ["x"] =
      (.noMatchingClients, { clients := [], maxConns := 5, doneSignals := [] }) :=
  ⟨(C3_empty_recipients { clients := [], maxConns := 5, doneSignals := [] }
      (fun _ => none) ⟨"tick", some "1"⟩ [] (by decide) (by decide)).1 rfl rfl,
   (C3_empty_recipients { clients := [], maxConns := 5, doneSignals := [] }
      (fun _ => none) ⟨"tick", some "1"⟩ ["x"] (by decide) (by decide)).2
      (by decide) (by decide)⟩

/-- C4 (counterexample): with exactly one resolved recipient whose write
fails, `SendToClients` returns the raw write error, not a partial-delivery
failure carrying counts; so the claim fails in the single-recipient case. -/
theorem C4_single_recipient_counterexample :
    (SendToClients { clients := [("a", ⟨"a", 0⟩)], maxConns := 3, doneSignals := [] }
        (fun _ => some "boom") ⟨"tick", some "1"⟩ []).1 = .sendError "boom" ∧
    (∀ b : Bool,
      (SendToClients { clients := [("a", ⟨"a", 0⟩)], maxConns := 3, doneSignals := [] }
          (fun _ => some "boom") ⟨"tick", some "1"⟩ []).1 ≠
        .partialFailure b 1 1 "boom") := by
  decide

/-- C4 (amended): for a valid message, a send with two or more resolved
recipients of which at least one write fails returns the partial-failure
result carrying the failed count, the total recipient count and the first
failing recipient's error; a send with exactly one resolved recipient whose
write fails returns that write error itself; and a send in which no
recipient write fails succeeds. -/
theorem C4_delivery_failure_result (s : SSEServer) (writeErr : Client → Option String)
    (msg : Message) (clientIDs : List String)
    (hty : msg.EventType ≠ "") (hdata : msg.Data ≠ none) :
    (∀ c e, resolveTargets s clientIDs = [c] → writeErr c = some e →
      (SendToClients s writeErr msg clientIDs).1 = .sendError e) ∧
    (∀ e rest, 2 ≤ (resolveTargets s clientIDs).length →
      (resolveTargets s clientIDs).filterMap writeErr = e :: rest →
      (SendToClients s writeErr msg clientIDs).1 =
        .partialFailure clientIDs.isEmpty (e :: rest).length
          (resolveTargets s clientIDs).length e) ∧
    (resolveTargets s clientIDs ≠ [] →
      (resolveTargets s clientIDs).filterMap writeErr = [] →
      (SendToClients s writeErr msg clientIDs).1 = .ok) := by
  refine ⟨?_, ?_, ?_⟩
  · intro c e hres hw
    simp [SendToClients, hty, hdata, hres, hw]
  · intro e rest hlen hfm
    rcases hres : resolveTargets s clientIDs with _ | ⟨c1, _ | ⟨c2, others⟩⟩
    · rw [hres] at hlen; simp at hlen
    · rw [hres] at hlen; simp at hlen
    · rw [hres] at hfm
      simp [SendToClients, hty, hdata, hres, hfm]
  · intro hne hfm
    rcases hres : resolveTargets s clientIDs with _ | ⟨c1, _ | ⟨c2, others⟩⟩
    · exact absurd hres hne
    · rw [hres] at hfm
      simp only [List.filterMap_cons] at hfm
      cases hw : writeErr c1 with
      | none => simp [SendToClients, hty, hdata, hres, hw]
      | some e => rw [hw] at hfm; simp at hfm
    · rw [hres] at hfm
      simp [SendToClients, hty, hdata, hres, hfm]

/-- Witness for C4_delivery_failure_result: two clients, one failing write. -/
theorem C4_delivery_failure_result_witness :
    (SendToClients
        { clients := [("a", ⟨"a", 0⟩), ("b", ⟨"b", 1⟩)], maxConns := 3, doneSignals := [] }
        (fun c => if c.ID = "b" then some "boom" else none)
        ⟨"tick", some "1"⟩ []).1 =
      .partialFailure ([] : List String).isEmpty ["boom"].length
        (resolveTargets
          { clients := [("a", ⟨"a", 0⟩), ("b", ⟨"b", 1⟩)], maxConns := 3, doneSignals := [] }
          []).length "boom" :=
  (C4_delivery_failure_result
    { clients := [("a", ⟨"a", 0⟩), ("b", ⟨"b", 1⟩)], maxConns := 3, doneSignals := [] }
    (fun c => if c.ID = "b" then some "boom" else none)
    ⟨"tick", some "1"⟩ [] (by decide) (by decide)).2.1 "boom" []
    (by decide) (by decide)

/-- C5: whenever a send reports a partial delivery failure on a well-formed
registry, every resolved recipient whose write failed is absent from the
mapping afterwards, and every binding whose client either was not a
recipient or wrote successfully is still present unchanged. -/
theorem C5_partial_failure_frame (s : SSEServer) (writeErr : Client → Option String)
    (msg : Message) (clientIDs : List String) (hwf : WF s)
    (b : Bool) (f t : Nat) (e : String) (s' : SSEServer)
    (h : SendToClients s writeErr msg clientIDs = (.partialFailure b f t e, s')) :
    (∀ c ∈ resolveTargets s clientIDs, (writeErr c).isSome →
        lookupClient s'.clients c.ID = none) ∧
    (∀ k c, lookupClient s.clients k = some c →
        (c ∈ resolveTargets s clientIDs → writeErr c = none) →
        lookupClient s'.clients k = some c) := by
  by_cases hty : msg.EventType = ""
  · simp [SendToClients, hty] at h
  by_cases hdata : msg.Data = none
  · simp [SendToClients, hty, hdata] at h
  have hstate : s' =
      ((resolveTargets s clientIDs).filter fun c => (writeErr c).isSome).foldl
        (fun st c => removeClient st c.ID) s ∧
      2 ≤ (resolveTargets s clientIDs).length := by
    rcases hres : resolveTargets s clientIDs with _ | ⟨c1, _ | ⟨c2, others⟩⟩
    · rw [show SendToClients s writeErr msg clientIDs =
          (if clientIDs.isEmpty then (.ok, s) else (.noMatchingClients, s)) by
            simp [SendToClients, hty, hdata, hres]] at h
      by_cases hb : clientIDs.isEmpty <;> simp [hb] at h
    · cases hw : writeErr c1 with
      | none =>
          rw [show SendToClients s writeErr msg clientIDs = (.ok, s) by
            simp [SendToClients, hty, hdata, hres, hw]] at h
          simp at h
      | some e1 =>
          rw [show SendToClients s writeErr msg clientIDs =
              (.sendError e1, removeClient s c1.ID) by
            simp [SendToClients, hty, hdata, hres, hw]] at h
          simp at h
    · cases hfm : (c1 :: c2 :: others).filterMap writeErr with
      | nil =>
          rw [show SendToClients s writeErr msg clientIDs =
              (.ok, ((c1 :: c2 :: others).filter fun c => (writeErr c).isSome).foldl
                (fun st c => removeClient st c.ID) s) by
            simp [SendToClients, hty, hdata, hres, hfm]] at h
          simp at h
      | cons e1 es =>
          rw [show SendToClients s writeErr msg clientIDs =
              (.partialFailure clientIDs.isEmpty (e1 :: es).length
                  (c1 :: c2 :: others).length e1,
                ((c1 :: c2 :: others).filter fun c => (writeErr c).isSome).foldl
                  (fun st c => removeClient st c.ID) s) by
            simp [SendToClients, hty, hdata, hres, hfm]] at h
          refine ⟨?_, by simp⟩
          exact (Prod.ext_iff.mp h).2.symm
  obtain ⟨hs', _⟩ := hstate
  subst hs'
  constructor
  · intro c hc hfail
    rw [lookupClient_foldl_removeClient _ s c.ID hwf]
    rw [if_pos]
    exact List.mem_map_of_mem Client.ID (List.mem_filter.mpr ⟨hc, by simpa using hfail⟩)
  · intro k c hk hok
    rw [lookupClient_foldl_removeClient _ s k hwf]
    rw [if_neg]
    · exact hk
    · intro hmem
      obtain ⟨c', hc', hcid⟩ := List.mem_map.mp hmem
      have hc'filter := List.mem_filter.mp hc'
      have hlc' : lookupClient s.clients c'.ID = some c' :=
        lookup_of_mem_resolveTargets s clientIDs hwf c' hc'filter.1
      rw [hcid] at hlc'
      rw [hk] at hlc'
      have : c = c' := by injection hlc'
      subst this
      have := hok hc'filter.1
      rw [this] at hc'filter
      simp at hc'filter

/-- Witness for C5_partial_failure_frame: three clients a, b, c where only
b's write fails under a broadcast; b is gone afterwards, a is untouched. -/
theorem C5_partial_failure_frame_witness :
    lookupClient (removeClient
        { clients := [("a", ⟨"a", 0⟩), ("b", ⟨"b", 1⟩), ("c", ⟨"c", 2⟩)],
          maxConns := 5, doneSignals := [] } "b").clients ("b" : String) = none ∧
    lookupClient (removeClient
        { clients := [("a", ⟨"a", 0⟩), ("b", ⟨"b", 1⟩), ("c", ⟨"c", 2⟩)],
          maxConns := 5, doneSignals := [] } "b").clients ("a" : String) =
      some ⟨"a", 0⟩ :=
  ⟨(C5_partial_failure_frame
      { clients := [("a", ⟨"a", 0⟩), ("b", ⟨"b", 1⟩), ("c", ⟨"c", 2⟩)],
        maxConns := 5, doneSignals := [] }
      (fun c => if c.ID = "b" then some "boom" else none)
      ⟨"tick", some "1"⟩ [] ⟨by decide, by decide⟩ true 1 3 "boom"
      (removeClient
        { clients := [("a", ⟨"a", 0⟩), ("b", ⟨"b", 1⟩), ("c", ⟨"c", 2⟩)],
          maxConns := 5, doneSignals := [] } "b")
      (by decide)).1 ⟨"b", 1⟩ (by decide) (by decide),
   (C5_partial_failure_frame
      { clients := [("a", ⟨"a", 0⟩), ("b", ⟨"b", 1⟩), ("c", ⟨"c", 2⟩)],
        maxConns := 5, doneSignals := [] }
      (fun c => if c.ID = "b" then some "boom" else none)
      ⟨"tick", some "1"⟩ [] ⟨by decide, by decide⟩ true 1 3 "boom"
      (removeClient
        { clients := [("a", ⟨"a", 0⟩), ("b", ⟨"b", 1⟩), ("c", ⟨"c", 2⟩)],
          maxConns := 5, doneSignals := [] } "b")
      (by decide)).2 "a" ⟨"a", 0⟩ (by decide) (by decide)⟩

/-- One tick of Go `startKeepalive`: under the client's write lock it runs
`fmt.Fprintf(client.w, ": keepalive\n\n")` and `client.f.Flush()`, and
discards both return values — the write outcome (second component) has no
effect whatsoever on the server state (first component), which the Go loop
never touches. -/
def keepaliveTick (s : SSEServer) (writeErr : Client → Option String) (c : Client) :
    SSEServer × Option String :=
  (s, writeErr c)

/-- C6 (counterexample): a keepalive write failure for the registered
client "a" leaves the client registered, fires no done signal, and in
particular is not handled like a send failure (which would remove it). -/
theorem C6_keepalive_failure_counterexample :
    (keepaliveTick { clients := [("a", ⟨"a", 0⟩)], maxConns := 3, doneSignals := [] }
        (fun _ => some "broken pipe") ⟨"a", 0⟩).2 = some "broken pipe" ∧
    IsClientConnected
      (keepaliveTick { clients := [("a", ⟨"a", 0⟩)], maxConns := 3, doneSignals := [] }
        (fun _ => some "broken pipe") ⟨"a", 0⟩).1 "a" = true ∧
    (keepaliveTick { clients := [("a", ⟨"a", 0⟩)], maxConns := 3, doneSignals := [] }
        (fun _ => some "broken pipe") ⟨"a", 0⟩).1.doneSignals = [] ∧
    (keepaliveTick { clients := [("a", ⟨"a", 0⟩)], maxConns := 3, doneSignals := [] }
        (fun _ => some "broken pipe") ⟨"a", 0⟩).1 ≠
      removeClient { clients := [("a", ⟨"a", 0⟩)], maxConns := 3, doneSignals := [] } "a" := by
  decide

/-- C6 (amended): a failing keepalive write is ignored by the pinger: the
registry mapping and the done signals after the tick are exactly those
before it, so the connection is not evicted on this path. -/
theorem C6_keepalive_failure_ignored (s : SSEServer) (writeErr : Client → Option String)
    (c : Client) (e : String) (h : writeErr c = some e) :
    (keepaliveTick s writeErr c).2 = some e ∧
    (keepaliveTick s writeErr c).1.clients = s.clients ∧
    (keepaliveTick s writeErr c).1.doneSignals = s.doneSignals := by
  exact ⟨by simp [keepaliveTick, h], rfl, rfl⟩

/-- Witness for C6_keepalive_failure_ignored. -/
theorem C6_keepalive_failure_ignored_witness :
    (keepaliveTick { clients := [("a", ⟨"a", 0⟩)], maxConns := 3, doneSignals := [] }
        (fun _ => some "broken pipe") ⟨"a", 0⟩).2 = some "broken pipe" ∧
    (keepaliveTick { clients := [("a", ⟨"a", 0⟩)], maxConns := 3, doneSignals := [] }
        (fun _ => some "broken pipe") ⟨"a", 0⟩).1.clients =
      ({ clients := [("a", ⟨"a", 0⟩)], maxConns := 3, doneSignals := [] } : SSEServer).clients ∧
    (keepaliveTick { clients := [("a", ⟨"a", 0⟩)], maxConns := 3, doneSignals := [] }
        (fun _ => some "broken pipe") ⟨"a", 0⟩).1.doneSignals =
      ({ clients := [("a", ⟨"a", 0⟩)], maxConns := 3, doneSignals := [] } : SSEServer).doneSignals :=
  C6_keepalive_failure_ignored
    { clients := [("a", ⟨"a", 0⟩)], maxConns := 3, doneSignals := [] }
    (fun _ => some "broken pipe") ⟨"a", 0⟩ "broken pipe" rfl

/-- One second in nanoseconds (`time.Second`); durations are nanosecond
counts as in Go `time.Duration`, all far below the int64 range. -/
def second : Nat := 1000000000

/-- Go `backoff *= 2; if backoff > 1*time.Minute { backoff = 1*time.Minute }`. -/
def nextBackoff (b : Nat) : Nat :=
  if 60 * second < b * 2 then 60 * second else b * 2

/-- Result of the client's `connectWithRetry`: `connected` for a nil return,
`exhausted maxRetries lastErr` for the final "tidak dapat terhubung setelah
%d percobaan: %v" error carrying the attempt budget and the last attempt's
error. -/
inductive RetryResult where
  | connected
  | exhausted (maxRetries : Nat) (lastErr : Option String)
  deriving DecidableEq

/-- The loop of Go `connectWithRetry`, in a run where the client context is
never cancelled. `attemptErr k` is the outcome of the k-th (1-based) call to
`establishConnection`. Returns the Go result together with the list of
backoff waits the loop performs, in order: on each failure the loop waits
the current backoff and only then doubles-and-caps it. -/
def connectWithRetryAux (attemptErr : Nat → Option String) (maxRetries : Nat)
    (retryCount : Nat) (backoff : Nat) (lastErr : Option String) :
    RetryResult × List Nat :=
  if retryCount < maxRetries then
    match attemptErr (retryCount + 1) with
    | none => (.connected, [])
    | some e =>
        let rest := connectWithRetryAux attemptErr maxRetries (retryCount + 1)
          (nextBackoff backoff) (some e)
        (rest.1, backoff :: rest.2)
  else (.exhausted maxRetries lastErr, [])
  termination_by maxRetries - retryCount

/-- Go `connectWithRetry(maxRetries, initialBackoff)`. -/
def connectWithRetry (attemptErr : Nat → Option String) (maxRetries : Nat)
    (initialBackoff : Nat) : RetryResult × List Nat :=
  connectWithRetryAux attemptErr maxRetries 0 initialBackoff none

theorem iterate_nextBackoff (d : Nat) (hd : d ≤ 60 * second) :
    ∀ k, nextBackoff^[k] d = min (d * 2 ^ k) (60 * second) := by
  intro k
  induction k with
  | zero => simpa using (Nat.min_eq_left hd).symm
  | succ k ih =>
      rw [Function.iterate_succ_apply', ih]
      have h2 : d * 2 ^ (k + 1) = d * 2 ^ k * 2 := by ring
      unfold nextBackoff
      by_cases hk : d * 2 ^ k ≤ 60 * second
      · rw [Nat.min_eq_left hk]
        by_cases hbig : 60 * second < d * 2 ^ k * 2
        · have hle : 60 * second ≤ d * 2 ^ k * 2 := Nat.le_of_lt hbig
          rw [if_pos hbig, h2, Nat.min_eq_right hle]
        · have hle : d * 2 ^ k * 2 ≤ 60 * second := Nat.le_of_not_lt hbig
          rw [if_neg hbig, h2, Nat.min_eq_left hle]
      · have hgt : 60 * second < d * 2 ^ k := Nat.lt_of_not_le hk
        rw [Nat.min_eq_right (Nat.le_of_lt hgt)]
        have hpos : 0 < 60 * second := by decide
        have hlt : 60 * second < 60 * second * 2 := by omega
        rw [if_pos hlt]
        have hge : 60 * second ≤ d * 2 ^ (k + 1) := by
          rw [h2]; omega
        rw [Nat.min_eq_right hge]

theorem connectWithRetryAux_all_fail (attemptErr : Nat → Option String) (m : Nat)
    (E : Nat → String)
    (hfail : ∀ k, 1 ≤ k → k ≤ m → attemptErr k = some (E k)) :
    ∀ n r (b : Nat) le, m - r = n → r < m →
      connectWithRetryAux attemptErr m r b le =
        (.exhausted m (some (E m)), List.iterate nextBackoff b (m - r)) := by
  intro n
  induction n with
  | zero => intro r b le hn hr; omega
  | succ n ih =>
      intro r b le hn hr
      rw [connectWithRetryAux, if_pos hr, hfail (r + 1) (by omega) (by omega)]
      simp only
      have hmr : m - r = (m - (r + 1)) + 1 := by omega
      by_cases h2 : r + 1 < m
      · rw [ih (r + 1) (nextBackoff b) (some (E (r + 1))) (by omega) h2]
        rw [hmr]
        simp [List.iterate]
      · have hm : m = r + 1 := by omega
        rw [connectWithRetryAux, if_neg (by omega)]
        have hE : E (r + 1) = E m := by rw [hm]
        have hmr1 : m - r = 1 := by omega
        simp [hE, hmr1, List.iterate]

/-- C7: when the initial delay is at most 60 seconds and all of the first m
attempts (m ≥ 1) fail, `connectWithRetry` performs exactly m backoff waits,
the k-th of which (1-based) is min(initial · 2^(k-1), 60s), and then returns
the exhaustion error carrying the last attempt's underlying error. -/
theorem C7_backoff_and_exhaustion (m : Nat) (d : Nat)
    (attemptErr : Nat → Option String) (E : Nat → String)
    (hm : 1 ≤ m) (hd : d ≤ 60 * second)
    (hfail : ∀ k, 1 ≤ k → k ≤ m → attemptErr k = some (E k)) :
    connectWithRetry attemptErr m d =
      (.exhausted m (some (E m)),
        (List.range m).map (fun i => min (d * 2 ^ i) (60 * second))) := by
  unfold connectWithRetry
  rw [connectWithRetryAux_all_fail attemptErr m E hfail (m - 0) 0 d none rfl (by omega)]
  have hlist : List.iterate nextBackoff d (m - 0)
      = (List.range m).map (fun i => min (d * 2 ^ i) (60 * second)) := by
    rw [Nat.sub_zero, ← List.range_map_iterate]
    exact List.map_congr_left fun i _ => iterate_nextBackoff d hd i
  rw [hlist]

/-- Witness for C7_backoff_and_exhaustion with two failing attempts and a
one-second initial delay. -/
theorem C7_backoff_and_exhaustion_witness :
    connectWithRetry (fun _ => some "connection refused") 2 second =
      (.exhausted 2 (some "connection refused"),
        (List.range 2).map (fun i => min (second * 2 ^ i) (60 * second))) :=
  C7_backoff_and_exhaustion 2 second (fun _ => some "connection refused")
    (fun _ => "connection refused") (by omega) (by decide)
    (fun _ _ _ => rfl)

/-- Scanner state of the Go `readEvents` loop: the pending `eventType` and
`eventData` strings (both empty at the start). -/
structure FramerState where
  eventType : String
  eventData : String
  deriving DecidableEq

/-- Go `strings.HasPrefix`, modelled on the string's character list (the
built-in `String.startsWith` is extensionally the same but does not reduce
inside the kernel). -/
def hasPrefix (s pre : String) : Bool :=
  decide (s.data.take pre.data.length = pre.data)

/-- Go `strings.TrimPrefix`: drop the prefix when present, else return the
string unchanged. -/
def trimPrefix (s pre : String) : String :=
  if hasPrefix s pre then ⟨s.data.drop pre.data.length⟩ else s

/-- The body of the Go `readEvents` loop for one scanned line, threading the
pending state and the list of dispatched (type, payload) pairs: comment
lines (prefix ":") are skipped; "event: " and "data: " set the pending
fields (`strings.TrimPrefix`); a blank line with both fields non-empty
dispatches one event and clears both; anything else is ignored. -/
def processLine (acc : FramerState × List (String × String)) (line : String) :
    FramerState × List (String × String) :=
  if hasPrefix line ":" then acc
  else if hasPrefix line "event: " then
    ({ acc.1 with eventType := trimPrefix line "event: " }, acc.2)
  else if hasPrefix line "data: " then
    ({ acc.1 with eventData := trimPrefix line "data: " }, acc.2)
  else if line = "" ∧ acc.1.eventType ≠ "" ∧ acc.1.eventData ≠ "" then
    (⟨"", ""⟩, acc.2 ++ [(acc.1.eventType, acc.1.eventData)])
  else acc

/-- Go `readEvents` over a finite list of scanned lines, starting from the
empty pending state with nothing dispatched. -/
def readEvents (lines : List String) : FramerState × List (String × String) :=
  lines.foldl processLine (⟨"", ""⟩, [])

/-- C8: feeding the framer the lines of "event: ping", "data: {"x":1}" and a
blank line dispatches exactly one event, of type ping with the JSON payload,
and clears both pending fields; prepending a comment line changes nothing
and dispatches no extra event. -/
theorem C8_framer_roundtrip :
    readEvents ["event: ping", "data: \x7b\"x\":1\x7d", ""] =
      (⟨"", ""⟩, [("ping", "\x7b\"x\":1\x7d")]) ∧
    readEvents [": keepalive", "event: ping", "data: \x7b\"x\":1\x7d", ""] =
      (⟨"", ""⟩, [("ping", "\x7b\"x\":1\x7d")]) := by
  decide

/-- The for loop of Go `enableCors`: the first entry equal to the request
origin or equal to "*" makes the function echo the request origin. -/
def corsLoop (requestOrigin : String) : List String → Option String
  | [] => none
  | allowed :: rest =>
      if allowed = requestOrigin ∨ allowed = "*" then some requestOrigin
      else corsLoop requestOrigin rest

/-- Go `enableCors`, restricted to the Access-Control-Allow-Origin value it
sets (the Allow-Methods and Allow-Headers values are the same constants
"GET, OPTIONS" and "Content-Type" on every path): "*" when the configured
list is empty, the request origin when the loop matches, and otherwise the
first configured entry. -/
def enableCors (origins : List String) (requestOrigin : String) : String :=
  match origins with
  | [] => "*"
  | o0 :: _ =>
      match corsLoop requestOrigin origins with
      | some o => o
      | none => o0

/-- C9 (counterexample): with allow-list ["*"] the stream endpoint echoes an
arbitrary request origin back, a value that is neither "*"-for-empty-list
nor an entry of the allow-list — refuting the claimed disjunction. -/
theorem C9_wildcard_echo_counterexample :
    enableCors ["*"] "http://evil.com" = "http://evil.com" ∧
    ¬ ((["*"] = ([] : List String) ∧ enableCors ["*"] "http://evil.com" = "*") ∨
        enableCors ["*"] "http://evil.com" ∈ ["*"]) := by
  decide

theorem corsLoop_eq_some (requestOrigin : String) (l : List String)
    (h : ∃ a ∈ l, a = requestOrigin ∨ a = "*") :
    corsLoop requestOrigin l = some requestOrigin := by
  induction l with
  | nil => simp at h
  | cons a rest ih =>
      by_cases ha : a = requestOrigin ∨ a = "*"
      · simp [corsLoop, ha]
      · simp only [List.mem_cons] at h
        obtain ⟨b, hb, hmatch⟩ := h
        rcases hb with hb | hb
        · subst hb; exact absurd hmatch ha
        · simp [corsLoop, ha, ih ⟨b, hb, hmatch⟩]

theorem corsLoop_eq_none (requestOrigin : String) (l : List String)
    (h : ∀ a ∈ l, a ≠ requestOrigin ∧ a ≠ "*") :
    corsLoop requestOrigin l = none := by
  induction l with
  | nil => rfl
  | cons a rest ih =>
      have ha := h a (by simp)
      have hcond : ¬ (a = requestOrigin ∨ a = "*") := by
        rintro (h1 | h1)
        · exact ha.1 h1
        · exact ha.2 h1
      simp [corsLoop, hcond, ih fun b hb => h b (List.mem_cons_of_mem _ hb)]

/-- C9 (amended): the Access-Control-Allow-Origin value the stream endpoint
sets is "*" when the allow-list is empty; the request's own origin whenever
some configured entry equals that origin or equals "*"; and when the list is
non-empty with no matching entry, the first configured entry — which is
never the requester's own origin. -/
theorem C9_allow_origin (origins : List String) (requestOrigin : String) :
    (origins = [] → enableCors origins requestOrigin = "*") ∧
    ((∃ a ∈ origins, a = requestOrigin ∨ a = "*") →
      enableCors origins requestOrigin = requestOrigin) ∧
    (∀ o0 rest, origins = o0 :: rest →
      (∀ a ∈ origins, a ≠ requestOrigin ∧ a ≠ "*") →
      enableCors origins requestOrigin = o0 ∧
      enableCors origins requestOrigin ≠ requestOrigin) := by
  refine ⟨?_, ?_, ?_⟩
  · intro h; subst h; rfl
  · intro h
    cases origins with
    | nil => simp at h
    | cons o0 rest =>
        simp [enableCors, corsLoop_eq_some requestOrigin (o0 :: rest) h]
  · intro o0 rest hor hno
    subst hor
    have hloop := corsLoop_eq_none requestOrigin (o0 :: rest) hno
    have hval : enableCors (o0 :: rest) requestOrigin = o0 := by
      simp [enableCors, hloop]
    refine ⟨hval, ?_⟩
    rw [hval]
    exact (hno o0 (by simp)).1

/-- Witness for C9_allow_origin: a one-entry allow-list and a non-matching
request origin get the configured entry, not their own origin, echoed. -/
theorem C9_allow_origin_witness :
    enableCors ["http://a.com"] "http://b.com" = "http://a.com" ∧
    enableCors ["http://a.com"] "http://b.com" ≠ "http://b.com" :=
  (C9_allow_origin ["http://a.com"] "http://b.com").2.2 "http://a.com" [] rfl
    (by decide)

/-- C10: registering a connection whose identifier is already bound, while
the registry is below capacity, succeeds and silently replaces the binding:
the count is unchanged, no done signal fires for the displaced connection,
and a later remove of that identifier deletes the binding and signals only
the newer connection. -/
theorem C10_silent_replacement (s : SSEServer) (old c2 : Client)
    (hold : lookupClient s.clients old.ID = some old)
    (hid : c2.ID = old.ID)
    (hcap : s.clients.length < s.maxConns) :
    ∃ s', addClient s c2 = (none, s') ∧
      lookupClient s'.clients old.ID = some c2 ∧
      s'.doneSignals = s.doneSignals ∧
      s'.clients.length = s.clients.length ∧
      removeClient s' old.ID =
        { s' with
          clients := mapErase s'.clients old.ID
          doneSignals := s.doneSignals ++ [c2] } := by
  have hmem : old.ID ∈ s.clients.map Prod.fst :=
    List.mem_map_of_mem Prod.fst (mem_of_lookupClient s.clients old.ID old hold)
  have hnle : ¬ s.maxConns ≤ s.clients.length := by omega
  refine ⟨{ s with clients := mapInsert s.clients c2.ID c2 }, ?_, ?_, rfl, ?_, ?_⟩
  · unfold addClient
    rw [if_neg hnle]
  · rw [hid]
    exact lookupClient_mapInsert_self s.clients old.ID c2
  · rw [hid]
    exact length_mapInsert_of_mem s.clients old.ID c2 hmem
  · apply removeClient_clients
    rw [hid]
    exact lookupClient_mapInsert_self s.clients old.ID c2

/-- Witness for C10_silent_replacement: replace the client bound at "a". -/
theorem C10_silent_replacement_witness :
    ∃ s', addClient { clients := [("a", ⟨"a", 0⟩)], maxConns := 3, doneSignals := [] }
        ⟨"a", 1⟩ = (none, s') ∧
      lookupClient s'.clients (Client.mk "a" 0).ID = some ⟨"a", 1⟩ ∧
      s'.doneSignals =
        ({ clients := [("a", ⟨"a", 0⟩)], maxConns := 3, doneSignals := [] } : SSEServer).doneSignals ∧
      s'.clients.length =
        ({ clients := [("a", ⟨"a", 0⟩)], maxConns := 3, doneSignals := [] } : SSEServer).clients.length ∧
      removeClient s' (Client.mk "a" 0).ID =
        { s' with
          clients := mapErase s'.clients (Client.mk "a" 0).ID
          doneSignals :=
            ({ clients := [("a", ⟨"a", 0⟩)], maxConns := 3, doneSignals := [] } : SSEServer).doneSignals
              ++ [⟨"a", 1⟩] } :=
  C10_silent_replacement
    { clients := [("a", ⟨"a", 0⟩)], maxConns := 3, doneSignals := [] }
    ⟨"a", 0⟩ ⟨"a", 1⟩ (by decide) rfl (by decide)
